import Mathlib

/-!
Shallow embedding of the MiniNeuron numeric core.

Two model variants appear in the source and are embedded separately:

* `NeuronSimulator` — the reduced (sigmoid / linearized) model from the
  unnamed source file: `sigmoid`, `updateChannels`,
  `updateMembranePotential` (with the clamp to [-90, 50]).
* `RealisticNeuron` — the Hodgkin–Huxley variant from `src/neuron.js`:
  the six rate functions `alpha_m` … `beta_n`, the Q10 temperature factor,
  the forward-Euler gating and membrane update, spike detection with the
  sliding timestamp window, and `applyParameterEffects`.

JavaScript floating-point arithmetic is idealized as real arithmetic; the
randomness consumed by `Math.random()` is modelled as an explicit oracle
argument.  DOM/visualization calls mutate no numeric state and are omitted.
JS division is total on reals here with `x / 0 = 0` (Lean convention); the
place where the source actually divides by zero is the subject of a claim
and is documented at the corresponding theorem.
-/

namespace MiniNeuron

noncomputable section

/-! ### Reduced model (`NeuronSimulator` class, unnamed source file) -/

namespace NeuronSimulator

/-- State of the reduced model: the fields of the `NeuronSimulator` class
that its numeric step reads or writes. -/
structure State where
  V : ℝ
  I : ℝ
  Na : ℝ
  K : ℝ
  Noise : ℝ
  Pulse : Bool
  Ca : ℝ
  NaBlock : ℝ
  temperature : ℝ

/-- `sigmoid(x, slope) = 1 / (1 + Math.exp(-x / slope))`. -/
def sigmoid (x slope : ℝ) : ℝ := 1 / (1 + Real.exp (-x / slope))

/-- `updateChannels()`: Na and K activations from sigmoids of the current
voltage, a fresh noise sample, and the input current; `rand` models the
`Math.random()` draw. -/
def updateChannels (rand : ℝ) (s : State) : State :=
  let Na := (1 - s.NaBlock) * sigmoid (s.V + 20) 6
  let K := sigmoid (s.V - 10) 4
  let Noise := (rand - 0.5) * 2
  let I := (if s.Pulse then (100 : ℝ) else 0) + Noise * (1 - s.Ca / 5)
  { s with Na := Na, K := K, Noise := Noise, I := I }

/-- The fixed time step of the reduced model (`const dt = 0.1`). -/
def dt : ℝ := 0.1

/-- Reduced `updateMembranePotential()`: one explicit Euler step followed by
the clamp `V = Math.max(-90, Math.min(50, V))`. -/
def updateMembranePotential (s : State) : State :=
  let dV := 0.02 * (s.I - (s.V + 55) + 30 * s.Na - 25 * s.K)
  let V1 := s.V + dV * dt
  { s with V := max (-90) (min 50 V1) }

/-- `step()` of the reduced model: `updateChannels` then
`updateMembranePotential` (the trailing `updateVisualization` touches only
the DOM). -/
def step (rand : ℝ) (s : State) : State :=
  updateMembranePotential (updateChannels rand s)

end NeuronSimulator

/-! ### Hodgkin–Huxley variant (`RealisticNeuron` class, `src/neuron.js`) -/

namespace RealisticNeuron

/-- State of the HH variant: the fields of `RealisticNeuron` that the
numeric step reads or writes.  Channel-state lists hold `true` for an open
channel. -/
structure State where
  V : ℝ
  m : ℝ
  h : ℝ
  n : ℝ
  I_stim : ℝ
  temperature : ℝ
  firingRate : ℝ
  lastSpikeTime : ℝ
  spikeTimes : List ℝ
  time : ℝ
  stimulationIntensity : ℝ
  calciumFactor : ℝ
  neurotransmitterReleaseProbability : ℝ
  synapticActive : Bool
  naChannelStates : List Bool
  kChannelStates : List Bool
  caChannelStates : List Bool

/-- The fixed time step (`this.timeStep = 0.05`, set in the constructor and
never reassigned). -/
def timeStep : ℝ := 0.05

/-- `alpha_m(V) = 0.1 * (V + 40) / (1 - Math.exp(-(V + 40) / 10))`. -/
def alpha_m (V : ℝ) : ℝ := 0.1 * (V + 40) / (1 - Real.exp (-(V + 40) / 10))

/-- `beta_m(V) = 4 * Math.exp(-(V + 65) / 18)`. -/
def beta_m (V : ℝ) : ℝ := 4 * Real.exp (-(V + 65) / 18)

/-- `alpha_h(V) = 0.07 * Math.exp(-(V + 65) / 20)`. -/
def alpha_h (V : ℝ) : ℝ := 0.07 * Real.exp (-(V + 65) / 20)

/-- `beta_h(V) = 1 / (1 + Math.exp(-(V + 35) / 10))`. -/
def beta_h (V : ℝ) : ℝ := 1 / (1 + Real.exp (-(V + 35) / 10))

/-- `alpha_n(V) = 0.01 * (V + 55) / (1 - Math.exp(-(V + 55) / 10))`. -/
def alpha_n (V : ℝ) : ℝ := 0.01 * (V + 55) / (1 - Real.exp (-(V + 55) / 10))

/-- `beta_n(V) = 0.125 * Math.exp(-(V + 65) / 80)`. -/
def beta_n (V : ℝ) : ℝ := 0.125 * Real.exp (-(V + 65) / 80)

/-- `tempFactor = Math.pow(2.5, (temperature - 37) / 10)` (real-exponent
power). -/
def tempFactor (T : ℝ) : ℝ := (2.5 : ℝ) ^ ((T - 37) / 10)

/-- The m gate after one Euler substep of `updateMembranePotential`
(`this.m += dt * (alpha_m * (1 - this.m) - beta_m * this.m)` with the
temperature-scaled rates). -/
def mNext (s : State) : ℝ :=
  s.m + timeStep * (alpha_m s.V * tempFactor s.temperature * (1 - s.m)
    - beta_m s.V * tempFactor s.temperature * s.m)

/-- The h gate after one Euler substep. -/
def hNext (s : State) : ℝ :=
  s.h + timeStep * (alpha_h s.V * tempFactor s.temperature * (1 - s.h)
    - beta_h s.V * tempFactor s.temperature * s.h)

/-- The n gate after one Euler substep. -/
def nNext (s : State) : ℝ :=
  s.n + timeStep * (alpha_n s.V * tempFactor s.temperature * (1 - s.n)
    - beta_n s.V * tempFactor s.temperature * s.n)

/-- `g_Na = 120 * Math.pow(this.m, 3) * this.h`, evaluated (as in the
source) on the gates just updated by this step. -/
def g_Na (s : State) : ℝ := 120 * mNext s ^ 3 * hNext s

/-- `g_K = 36 * Math.pow(this.n, 4)` on the updated n gate. -/
def g_K (s : State) : ℝ := 36 * nNext s ^ 4

/-- `g_L = 0.3`. -/
def g_L : ℝ := 0.3

/-- `I_Na = g_Na * (this.V - 55)` (old voltage, updated gates). -/
def I_Na (s : State) : ℝ := g_Na s * (s.V - 55)

/-- `I_K = g_K * (this.V + 72)`. -/
def I_K (s : State) : ℝ := g_K s * (s.V + 72)

/-- `I_L = g_L * (this.V + 49.387)`. -/
def I_L (s : State) : ℝ := g_L * (s.V + 49.387)

/-- `I_total = this.I_stim - I_Na - I_K - I_L`. -/
def I_total (s : State) : ℝ := s.I_stim - I_Na s - I_K s - I_L s

/-- The membrane potential after this step
(`this.V += dt * I_total / 1.0`). -/
def vNext (s : State) : ℝ := s.V + timeStep * I_total s / 1.0

/-- The spike-detection condition
`this.V > 0 && this.lastSpikeTime < this.time - 5`, evaluated on the
just-updated voltage and the not-yet-advanced clock. -/
def spikeCond (s : State) : Prop := vNext s > 0 ∧ s.lastSpikeTime < s.time - 5

instance (s : State) : Decidable (spikeCond s) := by
  unfold spikeCond; infer_instance

/-- The spike-timestamp list after this step: on a spike the current time is
pushed and entries with `this.time - spikeTime > 1000` are evicted;
otherwise the list is untouched. -/
def newSpikeTimes (s : State) : List ℝ :=
  if spikeCond s then
    (s.spikeTimes ++ [s.time]).filter (fun t => decide (s.time - t ≤ 1000))
  else s.spikeTimes

/-- First half of `applyParameterEffects()`:
`if (this.stimulationIntensity > 1) this.I_stim *= this.stimulationIntensity`. -/
def applyStimulationEffect (s : State) : State :=
  if s.stimulationIntensity > 1 then
    { s with I_stim := s.I_stim * s.stimulationIntensity }
  else s

/-- Second half of `applyParameterEffects()`:
`if (this.calciumFactor > 1) this.neurotransmitterReleaseProbability =
Math.min(0.9, 0.3 * this.calciumFactor)` (the synaptic-strength branch has
an empty body). -/
def applyCalciumEffect (s : State) : State :=
  if s.calciumFactor > 1 then
    { s with neurotransmitterReleaseProbability := min 0.9 (0.3 * s.calciumFactor) }
  else s

/-- `applyParameterEffects()`. -/
def applyParameterEffects (s : State) : State :=
  applyCalciumEffect (applyStimulationEffect s)

/-- `updateMembranePotential()` of the HH variant: temperature-scaled rate
constants, Euler update of m, h, n, ionic currents and Euler update of V
(no clamp), spike detection with window eviction, firing rate as the
current count, clock advance, then `applyParameterEffects()`. -/
def updateMembranePotential (s : State) : State :=
  applyParameterEffects
    { s with
      V := vNext s
      m := mNext s
      h := hNext s
      n := nNext s
      lastSpikeTime := if spikeCond s then s.time else s.lastSpikeTime
      spikeTimes := newSpikeTimes s
      firingRate := ((newSpikeTimes s).length : ℝ)
      time := s.time + timeStep }

/-- `updateIonChannelGates()`: purely-visual stochastic channel states; the
three `Math.random()` streams are modelled by the oracle `rand` (indices
0–9 sodium, 10–15 potassium, 16–21 calcium). -/
def updateIonChannelGates (rand : ℕ → ℝ) (s : State) : State :=
  let naOpenProbability := max 0 (min 1 ((s.V + 50) / 30))
  let kOpenProbability := max 0 (min 1 ((s.V + 70) / 40))
  let caOpenProbability : ℝ := if s.synapticActive then 0.8 else 0.1
  { s with
    naChannelStates := (List.range 10).map fun i => decide (rand i < naOpenProbability)
    kChannelStates := (List.range 6).map fun i => decide (rand (10 + i) < kOpenProbability)
    caChannelStates := (List.range 6).map fun i => decide (rand (16 + i) < caOpenProbability) }

/-- `step()` of the HH variant: `updateMembranePotential` then
`updateIonChannelGates` (the visualization calls in between touch only the
DOM). -/
def step (rand : ℕ → ℝ) (s : State) : State :=
  updateIonChannelGates rand (updateMembranePotential s)

/-- The constructor's initial numeric state (`this.V = -70`, `this.m = 0.05`,
`this.h = 0.6`, `this.n = 0.3`, `this.I_stim = 0`, `this.temperature = 37`,
`this.firingRate = 0`, `this.lastSpikeTime = 0`, `this.spikeTimes = []`,
`this.timeStep = 0.05`, `this.time = 0`, `this.stimulationIntensity = 0`,
`this.calciumFactor = 1.0`,
`this.neurotransmitterReleaseProbability = 0.3`). -/
def initState : State :=
  { V := -70
    m := 0.05
    h := 0.6
    n := 0.3
    I_stim := 0
    temperature := 37
    firingRate := 0
    lastSpikeTime := 0
    spikeTimes := []
    time := 0
    stimulationIntensity := 0
    calciumFactor := 1.0
    neurotransmitterReleaseProbability := 0.3
    synapticActive := false
    naChannelStates := []
    kChannelStates := []
    caChannelStates := [] }

/-- States reachable from the constructor state: numeric steps interleaved
with the external writes the page performs between steps (stimulus buttons
set `I_stim`; sliders set `temperature`, `calciumFactor`,
`stimulationIntensity`; the visual channel update consumes randomness). -/
inductive Reachable : State → Prop
  | init : Reachable initState
  | step (s : State) (i : ℝ) :
      Reachable s → Reachable (updateMembranePotential { s with I_stim := i })
  | chan (s : State) (rand : ℕ → ℝ) :
      Reachable s → Reachable (updateIonChannelGates rand s)
  | setTemperature (s : State) (T : ℝ) :
      Reachable s → Reachable { s with temperature := T }
  | setCalciumFactor (s : State) (c : ℝ) :
      Reachable s → Reachable { s with calciumFactor := c }
  | setStimulationIntensity (s : State) (x : ℝ) :
      Reachable s → Reachable { s with stimulationIntensity := x }

/-- The sum of the three ionic currents of one step (no stimulus term). -/
def I_ion (s : State) : ℝ := I_Na s + I_K s + I_L s

/-- A stimulus value that steers the next voltage exactly to `target`
(feedback choice of the externally-writable `I_stim`). -/
def pinI (s : State) (target : ℝ) : ℝ :=
  I_ion s + (target - s.V) / timeStep

/-- A concrete driven run: hold the voltage at −70 for 101 steps, fire one
spike at simulated time 5.05 ms, then hold the voltage at −70 again so no
further spike (and hence no further eviction) occurs while the clock runs
past the retention window. -/
def ce7Run : ℕ → State
  | 0 => initState
  | k + 1 =>
      let s := ce7Run k
      updateMembranePotential
        { s with I_stim := pinI s (if k = 101 then 10 else -70) }

/-- A state inside the domain swept by the gating-bounds property
(voltage −100 mV, temperature 40 °C, all gates in [0,1]). -/
def coldHotState : State :=
  { initState with V := -100, m := 1, h := 0.5, n := 0.5, temperature := 40 }

/-- A state with the stimulation-intensity knob above 1 and a unit stimulus
current, for exercising `applyParameterEffects`. -/
def drivenState : State :=
  { initState with stimulationIntensity := 2, I_stim := 1 }

end RealisticNeuron

/-! ### Spike-window bookkeeping over exact rationals

The eviction logic of `updateMembranePotential` (push the current time,
then drop entries with `time - spikeTime > 1000`) restricted to the spike
branch, over ℚ so that concrete scenarios are decidable. -/

/-- One spike recording at time `now`: `spikeTimes.push(now)` followed by
`filter (now - spikeTime <= 1000)` — lines 1818–1823 of `src/neuron.js`. -/
def recordSpike (now : ℚ) (spikeTimes : List ℚ) : List ℚ :=
  (spikeTimes ++ [now]).filter (fun t => decide (now - t ≤ 1000))

/-- Record a sequence of spikes in order. -/
def recordSpikes (times : List ℚ) : List ℚ :=
  times.foldl (fun ts now => recordSpike now ts) []

end

/-! ### Helper lemmas: unfolding the HH step -/

namespace RealisticNeuron

theorem applyParameterEffects_eq (s : State) :
    applyParameterEffects s =
      { s with
        I_stim :=
          if s.stimulationIntensity > 1 then s.I_stim * s.stimulationIntensity
          else s.I_stim
        neurotransmitterReleaseProbability :=
          if s.calciumFactor > 1 then min 0.9 (0.3 * s.calciumFactor)
          else s.neurotransmitterReleaseProbability } := by
  unfold applyParameterEffects applyCalciumEffect applyStimulationEffect
  by_cases h1 : s.stimulationIntensity > 1 <;>
    by_cases h2 : s.calciumFactor > 1 <;> simp [h1, h2]

theorem upd_eq (s : State) :
    updateMembranePotential s =
      { s with
        V := vNext s
        m := mNext s
        h := hNext s
        n := nNext s
        lastSpikeTime := if spikeCond s then s.time else s.lastSpikeTime
        spikeTimes := newSpikeTimes s
        firingRate := ((newSpikeTimes s).length : ℝ)
        time := s.time + timeStep
        I_stim :=
          if s.stimulationIntensity > 1 then s.I_stim * s.stimulationIntensity
          else s.I_stim
        neurotransmitterReleaseProbability :=
          if s.calciumFactor > 1 then min 0.9 (0.3 * s.calciumFactor)
          else s.neurotransmitterReleaseProbability } := by
  unfold updateMembranePotential
  rw [applyParameterEffects_eq]

@[simp] theorem upd_V (s : State) : (updateMembranePotential s).V = vNext s := by
  rw [upd_eq]

@[simp] theorem upd_m (s : State) : (updateMembranePotential s).m = mNext s := by
  rw [upd_eq]

@[simp] theorem upd_h (s : State) : (updateMembranePotential s).h = hNext s := by
  rw [upd_eq]

@[simp] theorem upd_n (s : State) : (updateMembranePotential s).n = nNext s := by
  rw [upd_eq]

@[simp] theorem upd_time (s : State) :
    (updateMembranePotential s).time = s.time + timeStep := by
  rw [upd_eq]

@[simp] theorem upd_lastSpikeTime (s : State) :
    (updateMembranePotential s).lastSpikeTime
      = if spikeCond s then s.time else s.lastSpikeTime := by
  rw [upd_eq]

@[simp] theorem upd_spikeTimes (s : State) :
    (updateMembranePotential s).spikeTimes = newSpikeTimes s := by
  rw [upd_eq]

@[simp] theorem upd_firingRate (s : State) :
    (updateMembranePotential s).firingRate = ((newSpikeTimes s).length : ℝ) := by
  rw [upd_eq]

@[simp] theorem upd_temperature (s : State) :
    (updateMembranePotential s).temperature = s.temperature := by
  rw [upd_eq]

@[simp] theorem upd_stimulationIntensity (s : State) :
    (updateMembranePotential s).stimulationIntensity = s.stimulationIntensity := by
  rw [upd_eq]

@[simp] theorem upd_calciumFactor (s : State) :
    (updateMembranePotential s).calciumFactor = s.calciumFactor := by
  rw [upd_eq]

@[simp] theorem upd_I_stim (s : State) :
    (updateMembranePotential s).I_stim
      = if s.stimulationIntensity > 1 then s.I_stim * s.stimulationIntensity
        else s.I_stim := by
  rw [upd_eq]

@[simp] theorem chan_V (r : ℕ → ℝ) (s : State) :
    (updateIonChannelGates r s).V = s.V := rfl

@[simp] theorem chan_m (r : ℕ → ℝ) (s : State) :
    (updateIonChannelGates r s).m = s.m := rfl

@[simp] theorem chan_h (r : ℕ → ℝ) (s : State) :
    (updateIonChannelGates r s).h = s.h := rfl

@[simp] theorem chan_n (r : ℕ → ℝ) (s : State) :
    (updateIonChannelGates r s).n = s.n := rfl

@[simp] theorem chan_time (r : ℕ → ℝ) (s : State) :
    (updateIonChannelGates r s).time = s.time := rfl

@[simp] theorem chan_lastSpikeTime (r : ℕ → ℝ) (s : State) :
    (updateIonChannelGates r s).lastSpikeTime = s.lastSpikeTime := rfl

@[simp] theorem chan_spikeTimes (r : ℕ → ℝ) (s : State) :
    (updateIonChannelGates r s).spikeTimes = s.spikeTimes := rfl

@[simp] theorem chan_temperature (r : ℕ → ℝ) (s : State) :
    (updateIonChannelGates r s).temperature = s.temperature := rfl

@[simp] theorem chan_I_stim (r : ℕ → ℝ) (s : State) :
    (updateIonChannelGates r s).I_stim = s.I_stim := rfl

@[simp] theorem chan_stimulationIntensity (r : ℕ → ℝ) (s : State) :
    (updateIonChannelGates r s).stimulationIntensity = s.stimulationIntensity := rfl

@[simp] theorem chan_calciumFactor (r : ℕ → ℝ) (s : State) :
    (updateIonChannelGates r s).calciumFactor = s.calciumFactor := rfl

@[simp] theorem chan_firingRate (r : ℕ → ℝ) (s : State) :
    (updateIonChannelGates r s).firingRate = s.firingRate := rfl

/-! ### Analytic helper lemmas: bounds on `exp`, the rate functions and the
temperature factor -/

theorem exp_le_inv_one_sub {x : ℝ} (h0 : 0 ≤ x) (h1 : x < 1) :
    Real.exp x ≤ 1 / (1 - x) := by
  have hx : 1 - x ≤ Real.exp (-x) := by
    have := Real.add_one_le_exp (-x); linarith
  have hpos : 0 < 1 - x := by linarith
  have h2 : Real.exp x * (1 - x) ≤ Real.exp x * Real.exp (-x) :=
    mul_le_mul_of_nonneg_left hx (Real.exp_pos x).le
  rw [← Real.exp_add] at h2
  simp only [add_neg_cancel, Real.exp_zero] at h2
  rw [le_div_iff₀ hpos]
  exact h2

theorem pow_le_exp (x : ℝ) (hx : 0 ≤ x) (n : ℕ) (hn : (n : ℝ) ≠ 0) :
    (1 + x / n) ^ n ≤ Real.exp x := by
  have h1 : 1 + x / n ≤ Real.exp (x / n) := by
    have := Real.add_one_le_exp (x / n); linarith
  have h0 : (0 : ℝ) ≤ 1 + x / n := by positivity
  calc (1 + x / n) ^ n ≤ Real.exp (x / n) ^ n := pow_le_pow_left₀ h0 h1 n
    _ = Real.exp (n * (x / n)) := (Real.exp_nat_mul _ n).symm
    _ = Real.exp x := by rw [mul_div_cancel₀ _ hn]

theorem exp_le_pow_inv (x : ℝ) (n : ℕ) (hn : (n : ℝ) ≠ 0) (h0 : 0 ≤ x)
    (h1 : x / n < 1) : Real.exp x ≤ (1 / (1 - x / n)) ^ n := by
  have h2 : Real.exp (x / n) ≤ 1 / (1 - x / n) :=
    exp_le_inv_one_sub (by positivity) h1
  calc Real.exp x = Real.exp (n * (x / n)) := by rw [mul_div_cancel₀ _ hn]
    _ = Real.exp (x / n) ^ n := Real.exp_nat_mul _ n
    _ ≤ (1 / (1 - x / n)) ^ n := pow_le_pow_left₀ (Real.exp_pos _).le h2 n

theorem rate_ratio_nonneg (x : ℝ) : 0 ≤ x / (1 - Real.exp (-x)) := by
  rcases lt_trichotomy x 0 with hx | hx | hx
  · have h1 : (1 : ℝ) < Real.exp (-x) := by
      rw [Real.one_lt_exp_iff]; linarith
    exact (div_pos_of_neg_of_neg hx (by linarith)).le
  · simp [hx]
  · have h1 : Real.exp (-x) < 1 := by
      rw [Real.exp_lt_one_iff]; linarith
    exact div_nonneg hx.le (by linarith)

theorem rate_ratio_le_one {x : ℝ} (hx : x ≤ 0) : x / (1 - Real.exp (-x)) ≤ 1 := by
  rcases eq_or_lt_of_le hx with rfl | hx'
  · norm_num
  · have h1 : (1 : ℝ) < Real.exp (-x) := by
      rw [Real.one_lt_exp_iff]; linarith
    rw [div_le_one_iff]
    right; right
    constructor
    · linarith
    · have := Real.add_one_le_exp (-x); linarith

theorem rate_ratio_le {x c : ℝ} (hx : x ≤ c) (hc : 0 ≤ c) :
    x / (1 - Real.exp (-x)) ≤ c + 1 := by
  rcases le_or_lt x 0 with h0 | h0
  · exact (rate_ratio_le_one h0).trans (by linarith)
  · have he : Real.exp (-x) < 1 := by rw [Real.exp_lt_one_iff]; linarith
    have hden : 0 < 1 - Real.exp (-x) := by linarith
    rw [div_le_iff₀ hden]
    have k1 : (x + 1) * Real.exp (-x) ≤ 1 := by
      have h2 := Real.add_one_le_exp x
      have hp := (Real.exp_pos (-x)).le
      calc (x + 1) * Real.exp (-x) ≤ Real.exp x * Real.exp (-x) :=
            mul_le_mul_of_nonneg_right (by linarith) hp
        _ = 1 := by rw [← Real.exp_add]; simp
    nlinarith [Real.exp_pos (-x)]

theorem alpha_m_eq (V : ℝ) :
    alpha_m V = ((V + 40) / 10) / (1 - Real.exp (-((V + 40) / 10))) := by
  unfold alpha_m
  rw [neg_div, show (0.1 : ℝ) * (V + 40) = (V + 40) / 10 from by ring]

theorem alpha_n_eq (V : ℝ) :
    alpha_n V = 0.1 * (((V + 55) / 10) / (1 - Real.exp (-((V + 55) / 10)))) := by
  unfold alpha_n
  rw [neg_div, show (0.01 : ℝ) * (V + 55) = 0.1 * ((V + 55) / 10) from by ring,
    mul_div_assoc]

theorem alpha_m_nonneg (V : ℝ) : 0 ≤ alpha_m V := by
  rw [alpha_m_eq]; exact rate_ratio_nonneg _

theorem alpha_m_le_ten (V : ℝ) (hV : V ≤ 50) : alpha_m V ≤ 10 := by
  rw [alpha_m_eq]
  have := rate_ratio_le (x := (V + 40) / 10) (c := 9) (by linarith) (by norm_num)
  linarith

theorem alpha_n_nonneg (V : ℝ) : 0 ≤ alpha_n V := by
  rw [alpha_n_eq]
  have := rate_ratio_nonneg ((V + 55) / 10)
  nlinarith

theorem alpha_n_le (V : ℝ) (hV : V ≤ 50) : alpha_n V ≤ 23 / 20 := by
  rw [alpha_n_eq]
  have h1 := rate_ratio_le (x := (V + 55) / 10) (c := 21 / 2) (by linarith) (by norm_num)
  have h2 := rate_ratio_nonneg ((V + 55) / 10)
  nlinarith

theorem beta_m_pos (V : ℝ) : 0 < beta_m V := by
  unfold beta_m; positivity

theorem alpha_h_pos (V : ℝ) : 0 < alpha_h V := by
  unfold alpha_h; positivity

theorem alpha_h_le (V : ℝ) (hV : -100 ≤ V) : alpha_h V ≤ 7 / 10 := by
  unfold alpha_h
  have harg : -(V + 65) / 20 ≤ 7 / 4 := by linarith
  have h1 : Real.exp (-(V + 65) / 20) ≤ Real.exp (7 / 4) := Real.exp_le_exp.mpr harg
  have h2 : Real.exp ((7 : ℝ) / 4) ≤ (1 / (1 - (7 / 4) / 4)) ^ (4 : ℕ) :=
    exp_le_pow_inv (7 / 4) 4 (by norm_num) (by norm_num) (by norm_num)
  have h3 : ((1 : ℝ) / (1 - (7 / 4) / 4)) ^ (4 : ℕ) = (16 / 9 : ℝ) ^ (4 : ℕ) := by
    norm_num
  have h4 : ((16 / 9 : ℝ)) ^ (4 : ℕ) ≤ 10 := by norm_num
  nlinarith

theorem beta_h_pos (V : ℝ) : 0 < beta_h V := by
  unfold beta_h; positivity

theorem beta_h_le_one (V : ℝ) : beta_h V ≤ 1 := by
  unfold beta_h
  rw [div_le_one (by positivity)]
  have := (Real.exp_pos (-(V + 35) / 10)).le
  linarith

theorem beta_n_pos (V : ℝ) : 0 < beta_n V := by
  unfold beta_n; positivity

theorem beta_n_le (V : ℝ) (hV : -100 ≤ V) : beta_n V ≤ 2 / 9 := by
  unfold beta_n
  have harg : -(V + 65) / 80 ≤ 7 / 16 := by linarith
  have h1 : Real.exp (-(V + 65) / 80) ≤ Real.exp (7 / 16) := Real.exp_le_exp.mpr harg
  have h2 : Real.exp ((7 : ℝ) / 16) ≤ 1 / (1 - 7 / 16) :=
    exp_le_inv_one_sub (by norm_num) (by norm_num)
  have h3 : (1 : ℝ) / (1 - 7 / 16) = 16 / 9 := by norm_num
  nlinarith

theorem tempFactor_pos (T : ℝ) : 0 < tempFactor T :=
  Real.rpow_pos_of_pos (by norm_num) _

theorem tempFactor_le (T : ℝ) (hT : T ≤ 40) : tempFactor T ≤ 10 / 7 := by
  unfold tempFactor
  rw [Real.rpow_def_of_pos (by norm_num : (0 : ℝ) < 2.5)]
  have hlog0 : 0 ≤ Real.log 2.5 := Real.log_nonneg (by norm_num)
  have hlog1 : Real.log 2.5 ≤ 1 := by
    rw [Real.log_le_iff_le_exp (by norm_num)]
    have := Real.exp_one_gt_d9
    linarith
  have hexp : Real.log 2.5 * ((T - 37) / 10) ≤ 3 / 10 := by
    have h1 : (T - 37) / 10 ≤ 3 / 10 := by linarith
    calc Real.log 2.5 * ((T - 37) / 10) ≤ Real.log 2.5 * (3 / 10) :=
          mul_le_mul_of_nonneg_left h1 hlog0
      _ ≤ 1 * (3 / 10) := mul_le_mul_of_nonneg_right hlog1 (by norm_num)
      _ = 3 / 10 := by ring
  have h2 : Real.exp (Real.log 2.5 * ((T - 37) / 10)) ≤ Real.exp (3 / 10) :=
    Real.exp_le_exp.mpr hexp
  have h3 : Real.exp ((3 : ℝ) / 10) ≤ 1 / (1 - 3 / 10) :=
    exp_le_inv_one_sub (by norm_num) (by norm_num)
  calc Real.exp (Real.log 2.5 * ((T - 37) / 10)) ≤ Real.exp (3 / 10) := h2
    _ ≤ 1 / (1 - 3 / 10) := h3
    _ ≤ 10 / 7 := by norm_num

theorem tempFactor_ge_one (T : ℝ) (hT : 37 ≤ T) : 1 ≤ tempFactor T := by
  unfold tempFactor
  rw [show (1 : ℝ) = (2.5 : ℝ) ^ (0 : ℝ) from (Real.rpow_zero _).symm]
  apply Real.rpow_le_rpow_left_iff (by norm_num : (1 : ℝ) < 2.5) |>.mpr
  linarith

theorem tempFactor_37 : tempFactor 37 = 1 := by
  unfold tempFactor
  norm_num

theorem ratio_le_of_neg (x : ℝ) (h1 : -(3 / 2) ≤ x) (h2 : x ≤ -(13 / 10)) :
    x / (1 - Real.exp (-x)) ≤ 7 / 10 := by
  have hz1 : (13 : ℝ) / 10 ≤ -x := by linarith
  have hzpos : (0 : ℝ) < -x := by linarith
  have hcube : (1 + -x / 3) ^ (3 : ℕ) ≤ Real.exp (-x) :=
    pow_le_exp (-x) (by linarith) 3 (by norm_num)
  have hlin : 1 + (10 / 7) * (-x) ≤ (1 + -x / 3) ^ (3 : ℕ) := by
    nlinarith [hz1, sq_nonneg (-x), sq_nonneg (-x - 13 / 10)]
  have hden : (10 / 7) * (-x) ≤ Real.exp (-x) - 1 := by
    push_cast at hcube
    linarith
  have hdenpos : (0 : ℝ) < Real.exp (-x) - 1 := by nlinarith
  have key : -x / (Real.exp (-x) - 1) ≤ 7 / 10 := by
    rw [div_le_iff₀ hdenpos]
    nlinarith
  have heq : x / (1 - Real.exp (-x)) = -x / (Real.exp (-x) - 1) := by
    rw [show (1 - Real.exp (-x)) = -(Real.exp (-x) - 1) from by ring, div_neg,
      ← neg_div]
  rw [heq]
  exact key

theorem alpha_m_le_one (V : ℝ) (hV : V ≤ -40) : alpha_m V ≤ 1 := by
  rw [alpha_m_eq]
  exact rate_ratio_le_one (by linarith)

theorem alpha_n_le_rest (V : ℝ) (h1 : -70 ≤ V) (h2 : V ≤ -68) :
    alpha_n V ≤ 7 / 100 := by
  rw [alpha_n_eq]
  have h := ratio_le_of_neg ((V + 55) / 10) (by linarith) (by linarith)
  nlinarith [rate_ratio_nonneg ((V + 55) / 10)]

theorem beta_m_le_rest (V : ℝ) (h1 : -70 ≤ V) : beta_m V ≤ 72 / 13 := by
  unfold beta_m
  have harg : -(V + 65) / 18 ≤ 5 / 18 := by linarith
  have hx : Real.exp (-(V + 65) / 18) ≤ Real.exp (5 / 18) := Real.exp_le_exp.mpr harg
  have h2 := exp_le_inv_one_sub (x := 5 / 18) (by norm_num) (by norm_num)
  nlinarith

theorem alpha_h_le_rest (V : ℝ) (h1 : -70 ≤ V) : alpha_h V ≤ 7 / 75 := by
  unfold alpha_h
  have harg : -(V + 65) / 20 ≤ 1 / 4 := by linarith
  have hx : Real.exp (-(V + 65) / 20) ≤ Real.exp (1 / 4) := Real.exp_le_exp.mpr harg
  have h2 := exp_le_inv_one_sub (x := 1 / 4) (by norm_num) (by norm_num)
  nlinarith

theorem beta_n_le_rest (V : ℝ) (h1 : -70 ≤ V) : beta_n V ≤ 2 / 15 := by
  unfold beta_n
  have harg : -(V + 65) / 80 ≤ 1 / 16 := by linarith
  have hx : Real.exp (-(V + 65) / 80) ≤ Real.exp (1 / 16) := Real.exp_le_exp.mpr harg
  have h2 := exp_le_inv_one_sub (x := 1 / 16) (by norm_num) (by norm_num)
  nlinarith

theorem gate_step_mem {g a b d : ℝ} (hg0 : 0 ≤ g) (hg1 : g ≤ 1)
    (ha : 0 ≤ a) (hb : 0 ≤ b) (hd : 0 ≤ d) (hda : d * a ≤ 1) (hdb : d * b ≤ 1) :
    0 ≤ g + d * (a * (1 - g) - b * g) ∧ g + d * (a * (1 - g) - b * g) ≤ 1 := by
  constructor
  · nlinarith [mul_nonneg (mul_nonneg hd ha) (sub_nonneg.mpr hg1),
      mul_nonneg hg0 (sub_nonneg.mpr hdb)]
  · nlinarith [mul_nonneg (sub_nonneg.mpr hg1) (sub_nonneg.mpr hda),
      mul_nonneg (mul_nonneg hd hb) hg0]

set_option maxHeartbeats 2000000 in
/-- One quiescent HH step near rest: with default temperature, zero
stimulus, voltage in [−70, −68], gates in range and n ≤ 0.342, the step
keeps the gates in range, lets n grow by at most 0.0035, and raises the
voltage by at least 0.17 mV (the leak current toward −49.387 dominates). -/
theorem restDrift_step (s : State)
    (hT : s.temperature = 37) (hI : s.I_stim = 0)
    (hSI : s.stimulationIntensity = 0)
    (hV1 : -70 ≤ s.V) (hV2 : s.V ≤ -68)
    (hm0 : 0 ≤ s.m) (hm1 : s.m ≤ 1) (hh0 : 0 ≤ s.h) (hh1 : s.h ≤ 1)
    (hn0 : 0 ≤ s.n) (hn1 : s.n ≤ 171 / 500) :
    (updateMembranePotential s).temperature = 37 ∧
    (updateMembranePotential s).I_stim = 0 ∧
    (updateMembranePotential s).stimulationIntensity = 0 ∧
    (0 ≤ (updateMembranePotential s).m ∧ (updateMembranePotential s).m ≤ 1) ∧
    (0 ≤ (updateMembranePotential s).h ∧ (updateMembranePotential s).h ≤ 1) ∧
    (0 ≤ (updateMembranePotential s).n ∧
      (updateMembranePotential s).n ≤ s.n + 7 / 2000) ∧
    s.V + 17 / 100 ≤ (updateMembranePotential s).V := by
  have htf : tempFactor s.temperature = 1 := by rw [hT]; exact tempFactor_37
  have hts : (0 : ℝ) ≤ timeStep := by unfold timeStep; norm_num
  have ham0 := alpha_m_nonneg s.V
  have ham1 : alpha_m s.V ≤ 1 := alpha_m_le_one s.V (by linarith)
  have hbm0 := (beta_m_pos s.V).le
  have hbm1 : beta_m s.V ≤ 72 / 13 := beta_m_le_rest s.V hV1
  have hah0 := (alpha_h_pos s.V).le
  have hah1 : alpha_h s.V ≤ 7 / 75 := alpha_h_le_rest s.V hV1
  have hbh0 := (beta_h_pos s.V).le
  have hbh1 : beta_h s.V ≤ 1 := beta_h_le_one s.V
  have han0 := alpha_n_nonneg s.V
  have han1 : alpha_n s.V ≤ 7 / 100 := alpha_n_le_rest s.V hV1 hV2
  have hbn0 := (beta_n_pos s.V).le
  have hbn1 : beta_n s.V ≤ 2 / 15 := beta_n_le_rest s.V hV1
  have hm' : 0 ≤ mNext s ∧ mNext s ≤ 1 := by
    unfold mNext
    rw [htf, mul_one, mul_one]
    refine gate_step_mem hm0 hm1 ham0 hbm0 hts ?_ ?_ <;> unfold timeStep <;>
      nlinarith
  have hhg : 0 ≤ hNext s ∧ hNext s ≤ 1 := by
    unfold hNext
    rw [htf, mul_one, mul_one]
    refine gate_step_mem hh0 hh1 hah0 hbh0 hts ?_ ?_ <;> unfold timeStep <;>
      nlinarith
  have hng : 0 ≤ nNext s ∧ nNext s ≤ 1 := by
    unfold nNext
    rw [htf, mul_one, mul_one]
    refine gate_step_mem hn0 (by linarith) han0 hbn0 hts ?_ ?_ <;>
      unfold timeStep <;> nlinarith
  have hngrow : nNext s ≤ s.n + 7 / 2000 := by
    unfold nNext
    rw [htf, mul_one, mul_one]
    unfold timeStep
    nlinarith [mul_nonneg hbn0 hn0, mul_nonneg han0 hn0]
  have hn691 : nNext s ≤ 691 / 2000 := by linarith
  have c1 : 120 * mNext s ^ 3 * hNext s * (s.V - 55) ≤ 0 := by
    have h3 : (0 : ℝ) ≤ 120 * mNext s ^ 3 * hNext s :=
      mul_nonneg (mul_nonneg (by norm_num) (pow_nonneg hm'.1 3)) hhg.1
    have h4 : s.V - 55 ≤ 0 := by linarith
    exact mul_nonpos_of_nonneg_of_nonpos h3 h4
  have c2 : 36 * nNext s ^ 4 * (s.V + 72) ≤ 2052 / 1000 := by
    have h4 : (0 : ℝ) ≤ nNext s ^ 4 := pow_nonneg hng.1 4
    have h5 : nNext s ^ 4 ≤ (691 / 2000 : ℝ) ^ 4 := pow_le_pow_left₀ hng.1 hn691 4
    have h6 : s.V + 72 ≤ 4 := by linarith
    have h7 : (0 : ℝ) ≤ s.V + 72 := by linarith
    have h8 : 36 * nNext s ^ 4 * (s.V + 72) ≤ 36 * nNext s ^ 4 * 4 :=
      mul_le_mul_of_nonneg_left h6 (by positivity)
    have h9 : (36 : ℝ) * nNext s ^ 4 * 4 ≤ 36 * (691 / 2000 : ℝ) ^ 4 * 4 := by
      nlinarith
    have h10 : (36 : ℝ) * (691 / 2000 : ℝ) ^ 4 * 4 ≤ 2052 / 1000 := by norm_num
    linarith
  have c3 : 0.3 * (s.V + 49.387) ≤ -(55839 / 10000) := by
    nlinarith
  refine ⟨by rw [upd_temperature, hT], ?_, by rw [upd_stimulationIntensity, hSI],
    ?_, ?_, ?_, ?_⟩
  · rw [upd_I_stim, hSI, hI]
    norm_num
  · rw [upd_m]; exact hm'
  · rw [upd_h]; exact hhg
  · rw [upd_n]; exact ⟨hng.1, hngrow⟩
  · rw [upd_V]
    unfold vNext I_total I_Na I_K I_L g_Na g_K g_L
    rw [hI]
    unfold timeStep
    nlinarith [c1, c2, c3]

/-- While the quiescent run from the constructor state stays at or below
−68 mV, each step keeps the invariants of `restDrift_step` and the voltage
has climbed by at least 0.17 mV per step. -/
theorem restDrift_main (k : ℕ) (hk12 : k ≤ 12)
    (hbelow : ∀ j : ℕ, j < k → (updateMembranePotential^[j] initState).V ≤ -68) :
    (updateMembranePotential^[k] initState).temperature = 37 ∧
    (updateMembranePotential^[k] initState).I_stim = 0 ∧
    (updateMembranePotential^[k] initState).stimulationIntensity = 0 ∧
    (0 ≤ (updateMembranePotential^[k] initState).m ∧
      (updateMembranePotential^[k] initState).m ≤ 1) ∧
    (0 ≤ (updateMembranePotential^[k] initState).h ∧
      (updateMembranePotential^[k] initState).h ≤ 1) ∧
    (0 ≤ (updateMembranePotential^[k] initState).n ∧
      (updateMembranePotential^[k] initState).n ≤ 3 / 10 + k * (7 / 2000)) ∧
    -70 + k * (17 / 100) ≤ (updateMembranePotential^[k] initState).V := by
  induction k with
  | zero => norm_num [initState]
  | succ k ihk =>
    have hk : k ≤ 12 := by omega
    obtain ⟨iT, iI, iSI, ⟨im0, im1⟩, ⟨ig0, ig1⟩, ⟨in0, in1⟩, iV⟩ :=
      ihk hk (fun j hj => hbelow j (by omega))
    have hV2 : (updateMembranePotential^[k] initState).V ≤ -68 :=
      hbelow k (by omega)
    have hkc : (0 : ℝ) ≤ (k : ℝ) := Nat.cast_nonneg k
    have hV1 : -70 ≤ (updateMembranePotential^[k] initState).V := by
      nlinarith
    have hkr : (k : ℝ) ≤ 11 := by
      exact_mod_cast (by omega : k ≤ 11)
    have hn171 : (updateMembranePotential^[k] initState).n ≤ 171 / 500 := by
      nlinarith
    have hstep := restDrift_step (updateMembranePotential^[k] initState)
      iT iI iSI hV1 hV2 im0 im1 ig0 ig1 in0 hn171
    obtain ⟨sT, sI, sSI, sm, sh, ⟨sn0, sn1⟩, sV⟩ := hstep
    rw [Function.iterate_succ_apply']
    refine ⟨sT, sI, sSI, sm, sh, ⟨sn0, ?_⟩, ?_⟩
    · push_cast
      nlinarith
    · push_cast
      nlinarith

/-! ### Helper lemmas for the driven spike-window run -/

@[simp] theorem I_Na_set_I_stim (s : State) (i : ℝ) :
    I_Na { s with I_stim := i } = I_Na s := rfl

@[simp] theorem I_K_set_I_stim (s : State) (i : ℝ) :
    I_K { s with I_stim := i } = I_K s := rfl

@[simp] theorem I_L_set_I_stim (s : State) (i : ℝ) :
    I_L { s with I_stim := i } = I_L s := rfl

/-- The feedback stimulus `pinI` steers the next voltage exactly to its
target. -/
theorem vNext_pin (s : State) (target : ℝ) :
    vNext { s with I_stim := pinI s target } = target := by
  show s.V + timeStep * (pinI s target - I_Na s - I_K s - I_L s) / 1.0 = target
  unfold pinI I_ion timeStep
  norm_num
  ring

theorem spikeCond_pin (s : State) (target : ℝ) :
    spikeCond { s with I_stim := pinI s target } =
      (target > 0 ∧ s.lastSpikeTime < s.time - 5) := by
  unfold spikeCond
  rw [vNext_pin]

/-- Field values of one step driven by the pinned stimulus. -/
theorem pin_step_fields (s : State) (target : ℝ) :
    (updateMembranePotential { s with I_stim := pinI s target }).V = target ∧
    (updateMembranePotential { s with I_stim := pinI s target }).time
      = s.time + timeStep ∧
    (updateMembranePotential { s with I_stim := pinI s target }).lastSpikeTime
      = (if target > 0 ∧ s.lastSpikeTime < s.time - 5 then s.time
          else s.lastSpikeTime) ∧
    (updateMembranePotential { s with I_stim := pinI s target }).spikeTimes
      = (if target > 0 ∧ s.lastSpikeTime < s.time - 5 then
          (s.spikeTimes ++ [s.time]).filter (fun t => decide (s.time - t ≤ 1000))
        else s.spikeTimes) := by
  by_cases hP : target > 0 ∧ s.lastSpikeTime < s.time - 5
  · have hc : spikeCond { s with I_stim := pinI s target } := by
      rw [spikeCond_pin]; exact hP
    refine ⟨by rw [upd_V, vNext_pin], by rw [upd_time], ?_, ?_⟩
    · rw [upd_lastSpikeTime, if_pos hc, if_pos hP]
    · rw [upd_spikeTimes]
      unfold newSpikeTimes
      rw [if_pos hc, if_pos hP]
  · have hc : ¬ spikeCond { s with I_stim := pinI s target } := by
      rw [spikeCond_pin]; exact hP
    refine ⟨by rw [upd_V, vNext_pin], by rw [upd_time], ?_, ?_⟩
    · rw [upd_lastSpikeTime, if_neg hc, if_neg hP]
    · rw [upd_spikeTimes]
      unfold newSpikeTimes
      rw [if_neg hc, if_neg hP]

theorem sorted_append_singleton {l : List ℝ} {a : ℝ} (hl : l.Sorted (· ≤ ·))
    (hall : ∀ x ∈ l, x ≤ a) : (l ++ [a]).Sorted (· ≤ ·) := by
  rw [List.Sorted, List.pairwise_append]
  refine ⟨hl, List.pairwise_singleton _ _, ?_⟩
  intro x hx y hy
  simp only [List.mem_singleton] at hy
  subst hy
  exact hall x hx

/-- Every state of the driven run is reachable. -/
theorem ce7Run_reachable (k : ℕ) : Reachable (ce7Run k) := by
  induction k with
  | zero => exact Reachable.init
  | succ k ihk => exact Reachable.step (ce7Run k) _ ihk

theorem ce7Run_succ (k : ℕ) :
    ce7Run (k + 1) = updateMembranePotential
      { ce7Run k with I_stim := pinI (ce7Run k) (if k = 101 then 10 else -70) } :=
  rfl

/-- Clock, voltage and spike bookkeeping of the driven run: pinned at −70
until step 101, one spike recorded at simulated time 5.05, pinned at −70
afterwards with the spike list never evicted again. -/
theorem ce7Run_spec (k : ℕ) :
    (ce7Run k).time = k * (1 / 20 : ℝ) ∧
      (if k ≤ 101 then
        (ce7Run k).V = -70 ∧ (ce7Run k).spikeTimes = ([] : List ℝ) ∧
          (ce7Run k).lastSpikeTime = 0
      else
        (ce7Run k).spikeTimes = [101 / 20] ∧
          (ce7Run k).lastSpikeTime = 101 / 20 ∧
          (ce7Run k).V = if k = 102 then 10 else -70) := by
  induction k with
  | zero => norm_num [ce7Run, initState]
  | succ k ihk =>
    obtain ⟨htime, hrest⟩ := ihk
    obtain ⟨pV, pT, pL, pS⟩ :=
      pin_step_fields (ce7Run k) (if k = 101 then (10 : ℝ) else -70)
    have htime' : (ce7Run (k + 1)).time = ((k + 1 : ℕ) : ℝ) * (1 / 20 : ℝ) := by
      rw [ce7Run_succ, pT, htime]
      unfold timeStep
      push_cast
      ring
    refine ⟨htime', ?_⟩
    rcases lt_trichotomy k 101 with hk | hk | hk
    · -- k ≤ 100: pinned at −70, no spike, k+1 ≤ 101
      rw [if_pos (by omega : k ≤ 101)] at hrest
      obtain ⟨hV, hlist, hlast⟩ := hrest
      have hne : k ≠ 101 := by omega
      have htgt : (if k = 101 then (10 : ℝ) else -70) = -70 := if_neg hne
      have hcond : ¬ ((if k = 101 then (10 : ℝ) else -70) > 0 ∧
          (ce7Run k).lastSpikeTime < (ce7Run k).time - 5) := by
        rintro ⟨habs, -⟩
        rw [htgt] at habs
        norm_num at habs
      rw [if_neg hcond] at pL pS
      rw [if_pos (by omega : k + 1 ≤ 101), ce7Run_succ]
      exact ⟨pV.trans htgt, pS.trans hlist, pL.trans hlast⟩
    · -- k = 101: the spike step
      subst hk
      rw [if_pos le_rfl] at hrest
      obtain ⟨hV, hlist, hlast⟩ := hrest
      have htgt : (if (101 : ℕ) = 101 then (10 : ℝ) else -70) = 10 := if_pos rfl
      have hcondP : (if (101 : ℕ) = 101 then (10 : ℝ) else -70) > 0 ∧
          (ce7Run 101).lastSpikeTime < (ce7Run 101).time - 5 := by
        refine ⟨by rw [htgt]; norm_num, ?_⟩
        rw [hlast, htime]
        norm_num
      rw [if_pos hcondP] at pL pS
      rw [if_neg (by omega : ¬ 101 + 1 ≤ 101), ce7Run_succ]
      refine ⟨?_, ?_, ?_⟩
      · rw [pS, hlist, htime]
        norm_num [List.filter]
      · rw [pL, htime]
        norm_num
      · rw [if_pos rfl]
        exact pV.trans htgt
    · -- k ≥ 102: pinned at −70, spike list frozen
      rw [if_neg (by omega : ¬ k ≤ 101)] at hrest
      obtain ⟨hlist, hlast, hV⟩ := hrest
      have hne : k ≠ 101 := by omega
      have htgt : (if k = 101 then (10 : ℝ) else -70) = -70 := if_neg hne
      have hcond : ¬ ((if k = 101 then (10 : ℝ) else -70) > 0 ∧
          (ce7Run k).lastSpikeTime < (ce7Run k).time - 5) := by
        rintro ⟨habs, -⟩
        rw [htgt] at habs
        norm_num at habs
      rw [if_neg hcond] at pL pS
      rw [if_neg (by omega : ¬ k + 1 ≤ 101), ce7Run_succ]
      refine ⟨pS.trans hlist, pL.trans hlast, ?_⟩
      rw [if_neg (by omega : ¬ k + 1 = 102)]
      exact pV.trans htgt

end RealisticNeuron

open RealisticNeuron

/-! ### Claim theorems -/

/-- C1: in the HH variant, each `updateMembranePotential` call computes
conductances `g_Na = 120·m³·h`, `g_K = 36·n⁴`, `g_L = 0.3` (on the
just-updated gates), ionic currents `g_x · (V − E_x)` with the fixed
reversal potentials 55, −72, −49.387, sets
`dV = (I_stim − I_Na − I_K − I_L) / Cm` with `Cm = 1`, advances
`V += dV · dt`, and applies no clamp to the resulting voltage: the new
voltage equals this expression exactly. -/
theorem hh_membrane_update_formula (s : State) :
    (updateMembranePotential s).V
      = s.V + timeStep *
          ((s.I_stim
            - 120 * (updateMembranePotential s).m ^ 3
                * (updateMembranePotential s).h * (s.V - 55)
            - 36 * (updateMembranePotential s).n ^ 4 * (s.V + 72)
            - 0.3 * (s.V + 49.387)) / 1) := by
  simp only [upd_V, upd_m, upd_h, upd_n, vNext, I_total, I_Na, I_K, I_L,
    g_Na, g_K, g_L]
  ring

/-- C8: one HH gating step scales all six rate constants by the single
temperature factor `2.5 ^ ((temperature − 37)/10)`. -/
theorem hh_q10_uniform_scaling (s : State) :
    ∃ q10 : ℝ, q10 = (2.5 : ℝ) ^ ((s.temperature - 37) / 10) ∧
      (updateMembranePotential s).m
        = s.m + timeStep * (q10 * alpha_m s.V * (1 - s.m)
            - q10 * beta_m s.V * s.m) ∧
      (updateMembranePotential s).h
        = s.h + timeStep * (q10 * alpha_h s.V * (1 - s.h)
            - q10 * beta_h s.V * s.h) ∧
      (updateMembranePotential s).n
        = s.n + timeStep * (q10 * alpha_n s.V * (1 - s.n)
            - q10 * beta_n s.V * s.n) := by
  refine ⟨tempFactor s.temperature, rfl, ?_, ?_, ?_⟩ <;>
    simp only [upd_m, upd_h, upd_n, mNext, hNext, nNext] <;> ring

/-- Compounding of the stimulus under `applyParameterEffects`, preserved
intensity included, by induction on the number of steps. -/
theorem hh_iterate_I_stim (s : State) (hgt : s.stimulationIntensity > 1) :
    ∀ k : ℕ,
      (updateMembranePotential^[k] s).I_stim
          = s.I_stim * s.stimulationIntensity ^ k ∧
        (updateMembranePotential^[k] s).stimulationIntensity
          = s.stimulationIntensity
  | 0 => by simp
  | k + 1 => by
    obtain ⟨h1, h2⟩ := hh_iterate_I_stim s hgt k
    rw [Function.iterate_succ_apply', upd_I_stim, upd_stimulationIntensity,
      h1, h2, if_pos hgt]
    exact ⟨by ring, rfl⟩

/-- C9: whenever `stimulationIntensity > 1`, each `updateMembranePotential`
call ends by multiplying `I_stim` by the intensity, so after `nSteps`
consecutive steps the stimulus equals its initial value times
`intensity ^ nSteps` instead of staying at the set value. -/
theorem hh_stimulus_compounding (s : State)
    (hgt : s.stimulationIntensity > 1) (nSteps : ℕ) :
    (updateMembranePotential s).I_stim = s.I_stim * s.stimulationIntensity ∧
    (updateMembranePotential^[nSteps] s).I_stim
      = s.I_stim * s.stimulationIntensity ^ nSteps := by
  refine ⟨?_, (hh_iterate_I_stim s hgt nSteps).1⟩
  rw [upd_I_stim, if_pos hgt]

/-- Witness for C9: at `drivenState` (intensity 2, unit stimulus) the
hypothesis holds and the theorem applies with three steps. -/
theorem hh_stimulus_compounding_witness :
    drivenState.stimulationIntensity > 1 ∧
      (updateMembranePotential^[3] drivenState).I_stim
        = drivenState.I_stim * drivenState.stimulationIntensity ^ 3 := by
  have hgt : drivenState.stimulationIntensity > 1 := by
    norm_num [drivenState, initState]
  exact ⟨hgt, (hh_stimulus_compounding drivenState hgt 3).2⟩

/-- C2: every reduced-model step computes
`Na = (1 − NaBlock) · sigmoid(V+20, 6)` and `K = sigmoid(V−10, 4)` from the
pre-step voltage, advances the voltage by `V += dV·dt` with
`dV = 0.02·(I − (V+55) + 30·Na − 25·K)`, then clamps to [−90, 50]; hence
the voltage after every reduced step lies within [−90, 50]. -/
theorem reduced_step_sigmoid_and_clamp (rand : ℝ) (s : NeuronSimulator.State) :
    (NeuronSimulator.step rand s).Na
        = (1 - s.NaBlock) * NeuronSimulator.sigmoid (s.V + 20) 6 ∧
    (NeuronSimulator.step rand s).K = NeuronSimulator.sigmoid (s.V - 10) 4 ∧
    (NeuronSimulator.step rand s).V
        = max (-90) (min 50 (s.V +
            0.02 * ((NeuronSimulator.step rand s).I - (s.V + 55)
              + 30 * (NeuronSimulator.step rand s).Na
              - 25 * (NeuronSimulator.step rand s).K) * NeuronSimulator.dt)) ∧
    -90 ≤ (NeuronSimulator.step rand s).V ∧
    (NeuronSimulator.step rand s).V ≤ 50 := by
  refine ⟨rfl, rfl, rfl, ?_, ?_⟩
  · exact le_max_left _ _
  · exact max_le (by norm_num) (min_le_left _ _)

/-- C4 (code bug): the HH rate functions carry no guard at their removable
singularities.  At `V = −40` the denominator of `alpha_m` is exactly
`1 − exp 0 = 0` (the JS source divides 0 by 0, producing NaN, where the
limiting value 1 is required), and likewise for `alpha_n` at `V = −55`
(limiting value 0.1); the total-division real embedding returns 0 at these
points, not the limit. -/
theorem hh_rate_singularity_unguarded :
    1 - Real.exp (-((-40 : ℝ) + 40) / 10) = 0 ∧ alpha_m (-40) = 0 ∧
    1 - Real.exp (-((-55 : ℝ) + 55) / 10) = 0 ∧ alpha_n (-55) = 0 := by
  norm_num [alpha_m, alpha_n]

/-- C6 counterexample: recording spikes at 100, 300, 1200, 2500 ms with the
source's 1000 ms eviction (`time − spikeTime ≤ 1000` kept) does NOT leave
{1200, 2500}: the 1200 entry is evicted at the fourth spike
(2500 − 1200 = 1300 > 1000), and the count is not 2. -/
theorem spike_window_counterexample :
    1200 ∉ recordSpikes [100, 300, 1200, 2500] ∧
    (recordSpikes [100, 300, 1200, 2500]).length ≠ 2 := by
  constructor <;> norm_num [recordSpikes, recordSpike, List.filter]

/-- C6 amended: after the fourth spike of the 100/300/1200/2500 scenario
the spike-timestamp list is exactly [2500] and the firing rate reflects a
1-count window. -/
theorem spike_window_amended :
    recordSpikes [100, 300, 1200, 2500] = [2500] ∧
    (recordSpikes [100, 300, 1200, 2500]).length = 1 := by
  constructor <;> norm_num [recordSpikes, recordSpike, List.filter]

/-- C10: the HH numeric step is deterministic in the membrane state — from
equal values of V, m, h, n, time, lastSpikeTime, the spike list,
temperature, I_stim and the stimulation/calcium factors, `step` (membrane
update followed by the randomized visual channel update) produces equal
successor values of all those fields, for arbitrary, even different,
random oracles. -/
theorem hh_step_deterministic (r1 r2 : ℕ → ℝ) (s1 s2 : State)
    (hV : s1.V = s2.V) (hm : s1.m = s2.m) (hgh : s1.h = s2.h)
    (hgn : s1.n = s2.n) (htime : s1.time = s2.time)
    (hlast : s1.lastSpikeTime = s2.lastSpikeTime)
    (hlist : s1.spikeTimes = s2.spikeTimes)
    (htemp : s1.temperature = s2.temperature)
    (hstim : s1.I_stim = s2.I_stim)
    (hint : s1.stimulationIntensity = s2.stimulationIntensity)
    (hca : s1.calciumFactor = s2.calciumFactor) :
    (step r1 s1).V = (step r2 s2).V ∧ (step r1 s1).m = (step r2 s2).m ∧
    (step r1 s1).h = (step r2 s2).h ∧ (step r1 s1).n = (step r2 s2).n ∧
    (step r1 s1).time = (step r2 s2).time ∧
    (step r1 s1).lastSpikeTime = (step r2 s2).lastSpikeTime ∧
    (step r1 s1).spikeTimes = (step r2 s2).spikeTimes ∧
    (step r1 s1).temperature = (step r2 s2).temperature ∧
    (step r1 s1).I_stim = (step r2 s2).I_stim ∧
    (step r1 s1).stimulationIntensity = (step r2 s2).stimulationIntensity ∧
    (step r1 s1).calciumFactor = (step r2 s2).calciumFactor := by
  have em : mNext s1 = mNext s2 := by unfold mNext; rw [hV, hm, htemp]
  have eh : hNext s1 = hNext s2 := by unfold hNext; rw [hV, hgh, htemp]
  have en : nNext s1 = nNext s2 := by unfold nNext; rw [hV, hgn, htemp]
  have ev : vNext s1 = vNext s2 := by
    unfold vNext I_total I_Na I_K I_L g_Na g_K
    rw [em, eh, en, hV, hstim]
  have ec : spikeCond s1 = spikeCond s2 := by
    unfold spikeCond; rw [ev, hlast, htime]
  have es : newSpikeTimes s1 = newSpikeTimes s2 := by
    unfold newSpikeTimes
    rw [hlist, htime]
    simp only [ec]
  unfold step
  refine ⟨?_, ?_, ?_, ?_, ?_, ?_, ?_, ?_, ?_, ?_, ?_⟩ <;>
    simp only [chan_V, chan_m, chan_h, chan_n, chan_time, chan_lastSpikeTime,
      chan_spikeTimes, chan_temperature, chan_I_stim,
      chan_stimulationIntensity, chan_calciumFactor, upd_V, upd_m, upd_h,
      upd_n, upd_time, upd_lastSpikeTime, upd_spikeTimes, upd_temperature,
      upd_I_stim, upd_stimulationIntensity, upd_calciumFactor, em, eh, en,
      ev, ec, es, htime, hlast, htemp, hstim, hint, hca]

/-- Witness for C10: the theorem applied at the constructor state with two
different random oracles; all field-equality hypotheses hold by `rfl`. -/
theorem hh_step_deterministic_witness :
    (step (fun _ => 0) initState).V = (step (fun _ => (1 : ℝ) / 2) initState).V ∧
    (step (fun _ => 0) initState).m = (step (fun _ => (1 : ℝ) / 2) initState).m ∧
    (step (fun _ => 0) initState).h = (step (fun _ => (1 : ℝ) / 2) initState).h ∧
    (step (fun _ => 0) initState).n = (step (fun _ => (1 : ℝ) / 2) initState).n ∧
    (step (fun _ => 0) initState).time
      = (step (fun _ => (1 : ℝ) / 2) initState).time ∧
    (step (fun _ => 0) initState).lastSpikeTime
      = (step (fun _ => (1 : ℝ) / 2) initState).lastSpikeTime ∧
    (step (fun _ => 0) initState).spikeTimes
      = (step (fun _ => (1 : ℝ) / 2) initState).spikeTimes ∧
    (step (fun _ => 0) initState).temperature
      = (step (fun _ => (1 : ℝ) / 2) initState).temperature ∧
    (step (fun _ => 0) initState).I_stim
      = (step (fun _ => (1 : ℝ) / 2) initState).I_stim ∧
    (step (fun _ => 0) initState).stimulationIntensity
      = (step (fun _ => (1 : ℝ) / 2) initState).stimulationIntensity ∧
    (step (fun _ => 0) initState).calciumFactor
      = (step (fun _ => (1 : ℝ) / 2) initState).calciumFactor :=
  hh_step_deterministic (fun _ => 0) (fun _ => (1 : ℝ) / 2) initState initState
    rfl rfl rfl rfl rfl rfl rfl rfl rfl rfl rfl

/-- C3 counterexample: at `V = −100` (in [−100, 50]), `T = 40` (in [6, 40])
and `m = 1` (in [0, 1]) a single gating step drives the m gate below 0:
`dt · tempFactor · beta_m(−100) = 0.05 · 2.5^0.3 · 4·exp(35/18) > 1`, so
`m' = 1 − dt · tempFactor · beta_m(−100) < 0`. -/
theorem hh_gate_escape_counterexample :
    (-100 ≤ coldHotState.V ∧ coldHotState.V ≤ 50) ∧
    (6 ≤ coldHotState.temperature ∧ coldHotState.temperature ≤ 40) ∧
    (0 ≤ coldHotState.m ∧ coldHotState.m ≤ 1) ∧
    (updateMembranePotential coldHotState).m < 0 := by
  have hV : coldHotState.V = -100 := rfl
  have hT : coldHotState.temperature = 40 := rfl
  have hM : coldHotState.m = 1 := rfl
  refine ⟨⟨by rw [hV], by rw [hV]; norm_num⟩,
    ⟨by rw [hT]; norm_num, by rw [hT]⟩,
    ⟨by rw [hM]; norm_num, by rw [hM]⟩, ?_⟩
  rw [upd_m]
  unfold mNext
  rw [hV, hT, hM]
  have hb : beta_m (-100) = 4 * Real.exp (35 / 18) := by
    unfold beta_m; norm_num
  have htf : 1 ≤ tempFactor 40 := tempFactor_ge_one 40 (by norm_num)
  have hexp : (25 / 18 : ℝ) ^ (5 : ℕ) ≤ Real.exp (35 / 18) := by
    have h := pow_le_exp (35 / 18) (by norm_num) 5 (by norm_num)
    rw [show (1 : ℝ) + (35 / 18) / (5 : ℕ) = 25 / 18 from by norm_num] at h
    exact h
  have hE : (5 : ℝ) < Real.exp (35 / 18) := by
    have hpow : (5 : ℝ) < (25 / 18 : ℝ) ^ (5 : ℕ) := by norm_num
    linarith
  have h5 : (5 : ℝ) ≤ Real.exp (35 / 18) * tempFactor 40 := by
    nlinarith [Real.exp_pos (35 / 18 : ℝ)]
  rw [hb]
  unfold timeStep
  nlinarith [tempFactor_pos 40, Real.exp_pos (35 / 18 : ℝ)]

/-- C3 amended: the gating bound as claimed, except that over the claimed
domain it additionally requires `dt · tempFactor(T) · beta_m(V) ≤ 1` (which
the corner `V = −100, T = 40` violates): for every gating state in [0,1]³,
voltage in [−100, 50] and temperature in [6, 40] satisfying that step-size
condition, one HH gating step leaves m, h and n within [0, 1]. -/
theorem hh_gate_bounds_amended (s : State)
    (hV1 : -100 ≤ s.V) (hV2 : s.V ≤ 50)
    (hT1 : 6 ≤ s.temperature) (hT2 : s.temperature ≤ 40)
    (hm0 : 0 ≤ s.m) (hm1 : s.m ≤ 1)
    (hh0 : 0 ≤ s.h) (hh1 : s.h ≤ 1)
    (hn0 : 0 ≤ s.n) (hn1 : s.n ≤ 1)
    (hbm : timeStep * (beta_m s.V * tempFactor s.temperature) ≤ 1) :
    (0 ≤ (updateMembranePotential s).m ∧ (updateMembranePotential s).m ≤ 1) ∧
    (0 ≤ (updateMembranePotential s).h ∧ (updateMembranePotential s).h ≤ 1) ∧
    (0 ≤ (updateMembranePotential s).n ∧ (updateMembranePotential s).n ≤ 1) := by
  have htf0 := tempFactor_pos s.temperature
  have htf1 := tempFactor_le s.temperature hT2
  have hts : (0 : ℝ) ≤ timeStep := by unfold timeStep; norm_num
  have e1 : 0 ≤ alpha_m s.V * tempFactor s.temperature :=
    mul_nonneg (alpha_m_nonneg _) htf0.le
  have e2 : 0 ≤ beta_m s.V * tempFactor s.temperature :=
    mul_nonneg (beta_m_pos _).le htf0.le
  have e3 : timeStep * (alpha_m s.V * tempFactor s.temperature) ≤ 1 := by
    have h := alpha_m_le_ten s.V hV2
    have hmul : alpha_m s.V * tempFactor s.temperature ≤ 10 * (10 / 7) :=
      mul_le_mul h htf1 htf0.le (by norm_num)
    unfold timeStep; nlinarith
  have f1 : 0 ≤ alpha_h s.V * tempFactor s.temperature :=
    mul_nonneg (alpha_h_pos _).le htf0.le
  have f2 : 0 ≤ beta_h s.V * tempFactor s.temperature :=
    mul_nonneg (beta_h_pos _).le htf0.le
  have f3 : timeStep * (alpha_h s.V * tempFactor s.temperature) ≤ 1 := by
    have h := alpha_h_le s.V hV1
    have hmul : alpha_h s.V * tempFactor s.temperature ≤ (7 / 10) * (10 / 7) :=
      mul_le_mul h htf1 htf0.le (by norm_num)
    unfold timeStep; nlinarith
  have f4 : timeStep * (beta_h s.V * tempFactor s.temperature) ≤ 1 := by
    have h := beta_h_le_one s.V
    have hmul : beta_h s.V * tempFactor s.temperature ≤ 1 * (10 / 7) :=
      mul_le_mul h htf1 htf0.le (by norm_num)
    unfold timeStep; nlinarith
  have g1 : 0 ≤ alpha_n s.V * tempFactor s.temperature :=
    mul_nonneg (alpha_n_nonneg _) htf0.le
  have g2 : 0 ≤ beta_n s.V * tempFactor s.temperature :=
    mul_nonneg (beta_n_pos _).le htf0.le
  have g3 : timeStep * (alpha_n s.V * tempFactor s.temperature) ≤ 1 := by
    have h := alpha_n_le s.V hV2
    have hmul : alpha_n s.V * tempFactor s.temperature ≤ (23 / 20) * (10 / 7) :=
      mul_le_mul h htf1 htf0.le (by norm_num)
    unfold timeStep; nlinarith
  have g4 : timeStep * (beta_n s.V * tempFactor s.temperature) ≤ 1 := by
    have h := beta_n_le s.V hV1
    have hmul : beta_n s.V * tempFactor s.temperature ≤ (2 / 9) * (10 / 7) :=
      mul_le_mul h htf1 htf0.le (by norm_num)
    unfold timeStep; nlinarith
  refine ⟨?_, ?_, ?_⟩
  · rw [upd_m]; unfold mNext
    exact gate_step_mem hm0 hm1 e1 e2 hts e3 hbm
  · rw [upd_h]; unfold hNext
    exact gate_step_mem hh0 hh1 f1 f2 hts f3 f4
  · rw [upd_n]; unfold nNext
    exact gate_step_mem hn0 hn1 g1 g2 hts g3 g4

/-- Witness for C3 amended: at the constructor state (V = −70, T = 37,
gates 0.05/0.6/0.3) all hypotheses hold — the extra step-size condition
because `0.05 · 1 · 4·exp(5/18) ≤ 0.05 · 4 · 18/13 < 1`. -/
theorem hh_gate_bounds_amended_witness :
    (0 ≤ (updateMembranePotential initState).m ∧
      (updateMembranePotential initState).m ≤ 1) ∧
    (0 ≤ (updateMembranePotential initState).h ∧
      (updateMembranePotential initState).h ≤ 1) ∧
    (0 ≤ (updateMembranePotential initState).n ∧
      (updateMembranePotential initState).n ≤ 1) := by
  have hbm : timeStep * (beta_m initState.V * tempFactor initState.temperature) ≤ 1 := by
    have h1 : initState.V = -70 := rfl
    have h2 : initState.temperature = 37 := rfl
    rw [h1, h2, tempFactor_37, mul_one]
    have hb : beta_m (-70 : ℝ) = 4 * Real.exp (5 / 18) := by
      unfold beta_m; norm_num
    rw [hb]
    have h3 := exp_le_inv_one_sub (x := 5 / 18) (by norm_num) (by norm_num)
    unfold timeStep
    nlinarith [Real.exp_pos (5 / 18 : ℝ)]
  exact hh_gate_bounds_amended initState (by norm_num [initState])
    (by norm_num [initState]) (by norm_num [initState]) (by norm_num [initState])
    (by norm_num [initState]) (by norm_num [initState]) (by norm_num [initState])
    (by norm_num [initState]) (by norm_num [initState]) (by norm_num [initState])
    hbm

/-- C5 counterexample: the quiescent run from the constructor state (V =
−70, default gates, zero stimulus, dt = 0.05) does NOT stay within ±2 mV of
−70 for 10,000 steps — within the first 12 steps the voltage exceeds
−68 mV, because the leak reversal −49.387 pulls the resting point of this
variant up to about −60 mV. -/
theorem hh_rest_band_counterexample :
    ∃ kk : ℕ, kk ≤ 10000 ∧
      2 < |(updateMembranePotential^[kk] initState).V + 70| := by
  by_cases hall : ∀ j : ℕ, j < 12 → (updateMembranePotential^[j] initState).V ≤ -68
  · refine ⟨12, by norm_num, ?_⟩
    have h := (restDrift_main 12 le_rfl hall).2.2.2.2.2.2
    have h2 := le_abs_self ((updateMembranePotential^[12] initState).V + 70)
    push_cast at h
    linarith
  · push_neg at hall
    obtain ⟨j, hj, hjV⟩ := hall
    refine ⟨j, by omega, ?_⟩
    have h2 := le_abs_self ((updateMembranePotential^[j] initState).V + 70)
    linarith

/-- C5 amended: starting at V = −70 with default gating values and zero
stimulus, the voltage leaves the ±2 mV band upward within the first 12
steps of dt = 0.05 ms (it drifts toward this variant's true resting point
near −60 mV). -/
theorem hh_rest_drift_amended :
    ∃ kk : ℕ, kk ≤ 12 ∧ -68 < (updateMembranePotential^[kk] initState).V := by
  by_cases hall : ∀ j : ℕ, j < 12 → (updateMembranePotential^[j] initState).V ≤ -68
  · refine ⟨12, le_rfl, ?_⟩
    have h := (restDrift_main 12 le_rfl hall).2.2.2.2.2.2
    push_cast at h
    linarith
  · push_neg at hall
    obtain ⟨j, hj, hjV⟩ := hall
    exact ⟨j, by omega, hjV⟩

/-- C7 counterexample: a reachable HH state whose spike list holds an entry
older than the retention window.  Eviction runs only inside the spike
branch, so after one spike at 5.05 ms a spike-free stretch (here: stimulus
chosen to hold the voltage at −70 mV for 20,099 further steps) leaves the
entry in place while the clock runs 1004.95 ms past it. -/
theorem spike_retention_counterexample :
    ∃ s, Reachable s ∧ ∃ t ∈ s.spikeTimes, 1000 < s.time - t := by
  refine ⟨ce7Run 20200, ce7Run_reachable 20200, 101 / 20, ?_, ?_⟩
  · have h := (ce7Run_spec 20200).2
    rw [if_neg (by omega : ¬ (20200 : ℕ) ≤ 101)] at h
    rw [h.1]
    simp
  · have ht := (ce7Run_spec 20200).1
    rw [ht]
    norm_num

/-- C7 amended: at every reachable state the spike-timestamp list is sorted
ascending (every entry also precedes the current clock); the windowing half
of the claimed invariant holds only at the moment a spike is recorded —
between spikes entries may age beyond the retention window. -/
theorem spike_sorted_amended (s : State) (hs : Reachable s) :
    s.spikeTimes.Sorted (· ≤ ·) ∧ ∀ t ∈ s.spikeTimes, t < s.time := by
  induction hs with
  | init => refine ⟨?_, ?_⟩ <;> simp [initState]
  | step s i hr ih =>
    obtain ⟨hsort, hlt⟩ := ih
    have hts : (0 : ℝ) < timeStep := by unfold timeStep; norm_num
    rw [upd_spikeTimes, upd_time]
    unfold newSpikeTimes
    by_cases hc : spikeCond { s with I_stim := i }
    · rw [if_pos hc]
      constructor
      · apply List.Sorted.filter
        exact sorted_append_singleton hsort (fun x hx => (hlt x hx).le)
      · intro t htmem
        have h2 := (List.mem_filter.mp htmem).1
        rw [List.mem_append] at h2
        rcases h2 with h3 | h3
        · have := hlt t h3
          show t < s.time + timeStep
          linarith
        · simp only [List.mem_singleton] at h3
          subst h3
          show s.time < s.time + timeStep
          linarith
    · rw [if_neg hc]
      refine ⟨hsort, fun t ht => ?_⟩
      have := hlt t ht
      show t < s.time + timeStep
      linarith
  | chan s r hr ih => exact ih
  | setTemperature s T hr ih => exact ih
  | setCalciumFactor s c hr ih => exact ih
  | setStimulationIntensity s x hr ih => exact ih

/-- Witness for C7 amended: the theorem applied at the constructor state,
whose reachability is immediate. -/
theorem spike_sorted_amended_witness :
    initState.spikeTimes.Sorted (· ≤ ·) ∧
      ∀ t ∈ initState.spikeTimes, t < initState.time :=
  spike_sorted_amended initState Reachable.init

end MiniNeuron
